import Mathlib

/-!
Shallow embedding of the LS-8 CPU emulator (`cpu.py` / `ls8.py`).

Modelling conventions:
* Python integers are unbounded, so every machine quantity is `Int`.
* Python's `x & 0xFF` on an arbitrary int equals `x % 256` with Python's
  floor-mod, which is `Int.emod` (Lean's `%` on `Int`).
* Python's arithmetic right shift `x >> k` is floor division, `Int.fdiv x (2^k)`,
  and `x & 0b11` / `x & 1` are `x % 4` / `x % 2` (again `emod`), which agree
  with Python's two's-complement semantics for negative ints as well.
* `print` side effects are modelled as an output log carried in the state.
* Python list indexing `reg[i]` admits negative indices (wrapping from the
  end) and raises `IndexError` otherwise; this is modelled by `pyIdx`
  returning `Option`, and handlers propagate the error outcome.
* `sys.exit(1)` in the run loop is a distinct terminal outcome.
-/

/-- One observable `print` event of the emulator. -/
inductive Output where
  | memErr (mar : Int)
  | prn (v : Int)
  | unknownInstr (ir : Int)
deriving DecidableEq

/-- Machine state of `CPU.__init__`: ram, registers, pc, ir, mar, mdr, fl,
halted, plus the log of printed output. -/
structure CPU where
  ram : List Int
  reg : List Int
  pc : Int
  ir : Int
  mar : Int
  mdr : Int
  fl : Int
  halted : Bool
  out : List Output
deriving DecidableEq

/-- `CPU.__init__`: 256 zeroed ram cells, 8 registers with `reg[7] = 0xF4`. -/
def initCPU : CPU :=
  { ram := List.replicate 256 0
  , reg := (List.replicate 8 0).set 7 0xF4
  , pc := 0, ir := 0, mar := 0, mdr := 0, fl := 0
  , halted := false, out := [] }

def HLT : Int := 0b00000001
def LDI : Int := 0b10000010
def PRN : Int := 0b01000111
def MUL : Int := 0b10100010
def PUSH : Int := 0b01000101
def POP : Int := 0b01000110
def CALL : Int := 0b01010000
def RET : Int := 0b00010001
def ADD : Int := 0b10100000
def CMP : Int := 0b10100111
def JMP : Int := 0b01010100
def JEQ : Int := 0b01010101
def JNE : Int := 0b01010110

/-- Python list index resolution: a non-negative index must be `< n`; a
negative index `i` wraps to `i + n` when `-n ≤ i`; anything else raises
`IndexError` (modelled as `none`). -/
def pyIdx (n : Nat) (i : Int) : Option Nat :=
  if 0 ≤ i ∧ i < (n : Int) then some i.toNat
  else if i < 0 ∧ 0 ≤ i + (n : Int) then some (i + (n : Int)).toNat
  else none

/-- `self.sp` property getter: `self.reg[7]`. -/
def CPU.sp (c : CPU) : Int := c.reg.getD 7 0

/-- `self.sp` property setter: `self.reg[7] = a & 0xFF`. -/
def CPU.setSp (c : CPU) (a : Int) : CPU := { c with reg := c.reg.set 7 (a % 256) }

/-- `CPU.ram_read`: in-bounds returns the cell; out of bounds prints an error
and returns the sentinel `-1`. -/
def CPU.ram_read (c : CPU) (mar : Int) : CPU × Int :=
  if 0 ≤ mar ∧ mar < (c.ram.length : Int) then (c, c.ram.getD mar.toNat 0)
  else ({ c with out := c.out ++ [Output.memErr mar] }, -1)

/-- `CPU.ram_write`: in-bounds stores `mdr & 0xFF`; out of bounds prints an
error and leaves memory unchanged. -/
def CPU.ram_write (c : CPU) (mar mdr : Int) : CPU :=
  if 0 ≤ mar ∧ mar < (c.ram.length : Int) then
    { c with ram := c.ram.set mar.toNat (mdr % 256) }
  else { c with out := c.out ++ [Output.memErr mar] }

/-- `self.op_a` property: `self.ram_read(self.pc + 1)`. -/
def CPU.opA (c : CPU) : CPU × Int := c.ram_read (c.pc + 1)

/-- `self.op_b` property: `self.ram_read(self.pc + 2)`. -/
def CPU.opB (c : CPU) : CPU × Int := c.ram_read (c.pc + 2)

/-- `self.instruction_size` property: `((self.ir >> 6) & 0b11) + 1`. -/
def instruction_size (ir : Int) : Int := ((Int.fdiv ir 64) % 4) + 1

/-- `self.instruction_sets_pc` property: `((self.ir >> 4) & 0b0001) == 1`. -/
def instruction_sets_pc (ir : Int) : Bool := (Int.fdiv ir 16) % 2 == 1

/-- `self.reg[i]` read, with Python index semantics. -/
def CPU.regGet (c : CPU) (i : Int) : Option Int :=
  (pyIdx c.reg.length i).map (fun j => c.reg.getD j 0)

/-- `self.reg[i] = v`, with Python index semantics. -/
def CPU.regSet (c : CPU) (i v : Int) : Option CPU :=
  (pyIdx c.reg.length i).map (fun j => { c with reg := c.reg.set j v })

/-- Outcome of one instruction handler: normal return, or an uncaught
`IndexError` from a register access (carrying the state at the crash). -/
inductive Res where
  | ok (c : CPU)
  | indexErr (c : CPU)
deriving DecidableEq

/-- `process_HLT`: `self.halted = True`. -/
def process_HLT (c : CPU) : Res := .ok { c with halted := true }

/-- `process_LDI`: `self.reg[self.op_a] = self.op_b` (RHS evaluated first).
In each pair `p` below, `p.1` is the threaded state and `p.2` the value read. -/
def process_LDI (c : CPU) : Res :=
  let p := c.opB
  let q := p.1.opA
  match q.1.regSet q.2 p.2 with
  | some c3 => .ok c3
  | none => .indexErr q.1

/-- `process_PRN`: `print(self.reg[self.op_a])`. -/
def process_PRN (c : CPU) : Res :=
  let p := c.opA
  match p.1.regGet p.2 with
  | some v => .ok { p.1 with out := p.1.out ++ [Output.prn v] }
  | none => .indexErr p.1

/-- `process_MUL`: `self.reg[self.op_a] *= self.reg[self.op_b]` (no mask). -/
def process_MUL (c : CPU) : Res :=
  let p := c.opA
  match p.1.regGet p.2 with
  | none => .indexErr p.1
  | some va =>
    let q := p.1.opB
    match q.1.regGet q.2 with
    | none => .indexErr q.1
    | some vb =>
      match q.1.regSet p.2 (va * vb) with
      | some c3 => .ok c3
      | none => .indexErr q.1

/-- `process_ADD`: `self.reg[self.op_a] += self.reg[self.op_b]` (no mask). -/
def process_ADD (c : CPU) : Res :=
  let p := c.opA
  match p.1.regGet p.2 with
  | none => .indexErr p.1
  | some va =>
    let q := p.1.opB
    match q.1.regGet q.2 with
    | none => .indexErr q.1
    | some vb =>
      match q.1.regSet p.2 (va + vb) with
      | some c3 => .ok c3
      | none => .indexErr q.1

/-- `process_PUSH`: `self.sp -= 1; self.mdr = self.reg[self.op_a];
self.ram_write(self.sp, self.mdr)`. -/
def process_PUSH (c : CPU) : Res :=
  let c1 := c.setSp (c.sp - 1)
  let p := c1.opA
  match p.1.regGet p.2 with
  | some v =>
    let c3 : CPU := { p.1 with mdr := v }
    .ok (c3.ram_write c3.sp c3.mdr)
  | none => .indexErr p.1

/-- `process_POP`: `self.mdr = self.ram_read(self.sp);
self.reg[self.op_a] = self.mdr; self.sp += 1`. -/
def process_POP (c : CPU) : Res :=
  let p := c.ram_read c.sp
  let c2 : CPU := { p.1 with mdr := p.2 }
  let q := c2.opA
  match q.1.regSet q.2 q.1.mdr with
  | some c4 => .ok (c4.setSp (c4.sp + 1))
  | none => .indexErr q.1

/-- `process_CALL`: `self.sp -= 1;
self.ram_write(self.sp, self.pc + self.instruction_size);
self.pc = self.reg[self.op_a]`. -/
def process_CALL (c : CPU) : Res :=
  let c1 := c.setSp (c.sp - 1)
  let c2 := c1.ram_write c1.sp (c1.pc + instruction_size c1.ir)
  let p := c2.opA
  match p.1.regGet p.2 with
  | some v => .ok { p.1 with pc := v }
  | none => .indexErr p.1

/-- `process_RET`: `self.pc = self.ram_read(self.sp); self.sp += 1`. -/
def process_RET (c : CPU) : Res :=
  let p := c.ram_read c.sp
  let c2 : CPU := { p.1 with pc := p.2 }
  .ok (c2.setSp (c2.sp + 1))

/-- `process_CMP`: sets `fl` to `0b100` (less), `0b010` (greater) or `0b001`
(equal); the `elif` re-evaluates both operand reads, as in the source. -/
def process_CMP (c : CPU) : Res :=
  let p := c.opA
  match p.1.regGet p.2 with
  | none => .indexErr p.1
  | some va1 =>
    let q := p.1.opB
    match q.1.regGet q.2 with
    | none => .indexErr q.1
    | some vb1 =>
      if va1 < vb1 then .ok { q.1 with fl := 0b100 }
      else
        let p2 := q.1.opA
        match p2.1.regGet p2.2 with
        | none => .indexErr p2.1
        | some va2 =>
          let q2 := p2.1.opB
          match q2.1.regGet q2.2 with
          | none => .indexErr q2.1
          | some vb2 =>
            if va2 > vb2 then .ok { q2.1 with fl := 0b010 }
            else .ok { q2.1 with fl := 0b001 }

/-- `process_JMP`: `self.pc = self.reg[self.op_a]`. -/
def process_JMP (c : CPU) : Res :=
  let p := c.opA
  match p.1.regGet p.2 with
  | some v => .ok { p.1 with pc := v }
  | none => .indexErr p.1

/-- `process_JEQ`: jump when `fl == 0b001`, else advance by own size. -/
def process_JEQ (c : CPU) : Res :=
  if c.fl = 0b001 then process_JMP c
  else .ok { c with pc := c.pc + instruction_size c.ir }

/-- `process_JNE`: jump when `fl != 0b001`, else advance by own size. -/
def process_JNE (c : CPU) : Res :=
  if c.fl ≠ 0b001 then process_JMP c
  else .ok { c with pc := c.pc + instruction_size c.ir }

/-- The `branchtable` dict: opcode byte to handler, `none` when absent. -/
def branchtable (ir : Int) : Option (CPU → Res) :=
  if ir = HLT then some process_HLT
  else if ir = LDI then some process_LDI
  else if ir = PRN then some process_PRN
  else if ir = MUL then some process_MUL
  else if ir = PUSH then some process_PUSH
  else if ir = POP then some process_POP
  else if ir = CALL then some process_CALL
  else if ir = RET then some process_RET
  else if ir = ADD then some process_ADD
  else if ir = CMP then some process_CMP
  else if ir = JMP then some process_JMP
  else if ir = JEQ then some process_JEQ
  else if ir = JNE then some process_JNE
  else none

/-- Outcome of one iteration of the `run` while-loop body. -/
inductive StepRes where
  | next (c : CPU)
  | exit1 (c : CPU)
  | indexErr (c : CPU)
deriving DecidableEq

/-- One iteration of the body of `CPU.run`: fetch `ir`, dispatch (or print and
`sys.exit(1)`), then the default pc advance unless the instruction sets pc. -/
def step (c : CPU) : StepRes :=
  let p := c.ram_read c.pc
  let c1 := { p.1 with ir := p.2 }
  match branchtable c1.ir with
  | none => .exit1 { c1 with out := c1.out ++ [Output.unknownInstr c1.ir] }
  | some h =>
    match h c1 with
    | .ok c2 =>
      if instruction_sets_pc c2.ir then .next c2
      else .next { c2 with pc := c2.pc + instruction_size c2.ir }
    | .indexErr c2 => .indexErr c2

/-- Outcome of `CPU.run`. -/
inductive RunRes where
  | done (c : CPU)
  | exit1 (c : CPU)
  | indexErr (c : CPU)
  | fuelOut (c : CPU)
deriving DecidableEq

/-- `CPU.run`: the while-loop, fuelled. -/
def run (fuel : Nat) (c : CPU) : RunRes :=
  match fuel with
  | 0 => .fuelOut c
  | fuel + 1 =>
    if c.halted then .done c
    else
      match step c with
      | .next c2 => run fuel c2
      | .exit1 c2 => .exit1 c2
      | .indexErr c2 => .indexErr c2

/-- The machine state carried by a `StepRes`. -/
def StepRes.state : StepRes → CPU
  | .next c => c
  | .exit1 c => c
  | .indexErr c => c

/-- The machine state carried by a `RunRes`. -/
def RunRes.state : RunRes → CPU
  | .done c => c
  | .exit1 c => c
  | .indexErr c => c
  | .fuelOut c => c

/-- The machine state carried by a `Res`. -/
def Res.state : Res → CPU
  | .ok c => c
  | .indexErr c => c

/-! Probe states used by concrete theorems. -/

/-- A machine state poised to execute ADD with reg0 = 200 and reg1 = 100. -/
def addProbe : CPU :=
  { initCPU with
      ram := [ADD, 0, 1] ++ List.replicate 253 0,
      reg := [200, 100, 0, 0, 0, 0, 0, 0xF4] }

/-- A machine state poised to execute MUL with reg0 = 200 and reg1 = 100. -/
def mulProbe : CPU :=
  { initCPU with
      ram := [MUL, 0, 1] ++ List.replicate 253 0,
      reg := [200, 100, 0, 0, 0, 0, 0, 0xF4] }

/-- Program: LDI R7,200; LDI R0,200; ADD R7,R0 (reg7 becomes 400, unmasked);
POP R1 (reads Memory[400], out of bounds); HLT. -/
def oobProbe : CPU :=
  { initCPU with ram := [LDI, 7, 200, LDI, 0, 200, ADD, 7, 0, POP, 1, HLT] ++ List.replicate 244 0 }

/-- Program consisting solely of the unrecognized opcode byte 200. -/
def unkProbeA : CPU := { initCPU with ram := (List.replicate 256 0).set 0 200 }

/-- Program LDI R0,5 followed by the unrecognized opcode byte 200 (reached
with PC = 3). -/
def unkProbeB : CPU := { initCPU with ram := [LDI, 0, 5, 200] ++ List.replicate 252 0 }

/-- A machine state poised to execute LDI R3,7 at PC = 0. -/
def ldiProbe : CPU := { initCPU with ram := [LDI, 3, 7] ++ List.replicate 253 0 }

/-- The machine state after the LDI R3,7 handler has run on `ldiProbe`. -/
def ldiProbeAfter : CPU :=
  { ldiProbe with ir := LDI, reg := ((List.replicate 8 0).set 7 0xF4).set 3 7 }

/-- A machine state poised to execute CMP R0,R1 with reg0 = reg1 = 5. -/
def cmpProbe : CPU :=
  { initCPU with ram := [CMP, 0, 1] ++ List.replicate 253 0, reg := [5, 5, 0, 0, 0, 0, 0, 0xF4] }

/-- A machine state mid-cycle on JEQ R2 with the equal flag set. -/
def jeqProbe : CPU :=
  { initCPU with
      ram := [JEQ, 2] ++ List.replicate 254 0,
      ir := JEQ,
      fl := 1,
      reg := [0, 0, 33, 0, 0, 0, 0, 0xF4] }

/-- A machine state mid-cycle on JNE R2 with the greater flag set. -/
def jneProbe : CPU :=
  { initCPU with
      ram := [JNE, 2] ++ List.replicate 254 0,
      ir := JNE,
      fl := 2,
      reg := [0, 0, 44, 0, 0, 0, 0, 0xF4] }

/-- Every memory cell holds an 8-bit value. -/
def MemOK (c : CPU) : Prop := ∀ x ∈ c.ram, 0 ≤ x ∧ x < 256

/-- A machine state poised to run PUSH R0; POP R0 with reg0 = 42, SP = 0xF4. -/
def pushPopProbe : CPU :=
  { initCPU with
      ram := [PUSH, 0, POP, 0] ++ List.replicate 252 0,
      reg := [42, 0, 0, 0, 0, 0, 0, 0xF4] }

/-- A machine state poised to run CALL R0 with reg0 = 10 and RET at address 10. -/
def callRetProbe : CPU :=
  { initCPU with
      ram := [CALL, 0, 0, 0, 0, 0, 0, 0, 0, 0, RET] ++ List.replicate 245 0,
      reg := [10, 0, 0, 0, 0, 0, 0, 0xF4] }

set_option maxRecDepth 8000

/-! Helper lemmas. -/

/-- On non-negative dividends, Python's floor division (`fdiv`) agrees with
Lean's `/` on `Int` (Euclidean division). -/
theorem fdiv_eq_ediv_of_nonneg (a : Int) (b : Nat) (h : 0 ≤ a) :
    Int.fdiv a (b : Int) = a / (b : Int) := by
  obtain ⟨m, rfl⟩ := Int.eq_ofNat_of_zero_le h
  cases m with
  | zero => simp [Int.fdiv]
  | succ m =>
    show Int.fdiv (Int.ofNat (m + 1)) (Int.ofNat b) = Int.ediv (Int.ofNat (m + 1)) (Int.ofNat b)
    rfl

/-! Claim C1. -/

/-- C1: the claim says register arithmetic wraps modulo 256, but `process_ADD`
and `process_MUL` apply no mask: executing ADD with reg0 = 200, reg1 = 100
leaves reg0 = 300 (not (200+100) % 256 = 44) and executing MUL leaves
reg0 = 20000 (not (200*100) % 256 = 32). -/
theorem add_mul_not_masked :
    (step addProbe).state.regGet 0 = some 300 ∧ ((200 + 100) % 256 : Int) = 44 ∧
    (step mulProbe).state.regGet 0 = some 20000 ∧ ((200 * 100) % 256 : Int) = 32 := by
  refine ⟨by decide, by decide, by decide, by decide⟩

/-! Claim C2. -/

/-- C2 counterexample: an out-of-bounds memory read (address 400) does not
terminate execution: the machine logs the error, substitutes the sentinel
value -1 into R1, and runs on to a clean HLT. -/
theorem oob_read_not_fatal :
    run 10 oobProbe = RunRes.done ((run 10 oobProbe).state) ∧
    (run 10 oobProbe).state.out = [Output.memErr 400] ∧
    (run 10 oobProbe).state.regGet 1 = some (-1) ∧
    (run 10 oobProbe).state.halted = true := by
  refine ⟨by decide, by decide, by decide, by decide⟩

/-- C2 (amended): for every address outside the RAM bounds, a memory read logs
an error naming the failing address and returns the sentinel -1, and a memory
write logs the error and leaves memory unchanged; neither terminates
execution, and the report carries the address but not the PC. -/
theorem ram_oob_logs_and_continues (c : CPU) (mar v : Int)
    (h : ¬ (0 ≤ mar ∧ mar < (c.ram.length : Int))) :
    c.ram_read mar = ({ c with out := c.out ++ [Output.memErr mar] }, -1) ∧
    c.ram_write mar v = { c with out := c.out ++ [Output.memErr mar] } ∧
    (c.ram_read mar).1.halted = c.halted := by
  unfold CPU.ram_read CPU.ram_write
  simp [h]

/-- Witness for `ram_oob_logs_and_continues` at the freshly initialised
machine and address 256 (one past the end of RAM). -/
theorem ram_oob_logs_and_continues_witness :
    ¬ (0 ≤ (256 : Int) ∧ (256 : Int) < (initCPU.ram.length : Int)) ∧
    (initCPU.ram_read 256 = ({ initCPU with out := initCPU.out ++ [Output.memErr 256] }, -1) ∧
     initCPU.ram_write 256 7 = { initCPU with out := initCPU.out ++ [Output.memErr 256] } ∧
     (initCPU.ram_read 256).1.halted = initCPU.halted) :=
  ⟨by decide, ram_oob_logs_and_continues initCPU 256 7 (by decide)⟩

/-! Claim C3. -/

/-- C3 counterexample: two failing executions whose PCs at the moment of
failure differ (0 versus 3) emit identical failure reports, so the report
carries the opcode value only, not the offending PC. -/
theorem unknown_opcode_report_lacks_pc :
    run 3 unkProbeA = RunRes.exit1 ((run 3 unkProbeA).state) ∧
    run 3 unkProbeB = RunRes.exit1 ((run 3 unkProbeB).state) ∧
    (run 3 unkProbeA).state.out = (run 3 unkProbeB).state.out ∧
    (run 3 unkProbeA).state.pc = 0 ∧ (run 3 unkProbeB).state.pc = 3 := by
  refine ⟨by decide, by decide, by decide, by decide, by decide⟩

/-- C3 (amended): when the fetched opcode byte has no `branchtable` entry the
loop stops with exit status 1, the report carrying the opcode value (the PC at
the time of failure is left in the machine state but is not part of the
report); for a program consisting solely of one unrecognized byte this
happens with PC = 0 and that byte value. -/
theorem unknown_opcode_exit (c : CPU) (f : Nat)
    (hh : c.halted = false)
    (hb : 0 ≤ c.pc ∧ c.pc < (c.ram.length : Int))
    (hu : branchtable (c.ram.getD c.pc.toNat 0) = none) :
    run (f + 1) c = RunRes.exit1
      { c with ir := c.ram.getD c.pc.toNat 0
             , out := c.out ++ [Output.unknownInstr (c.ram.getD c.pc.toNat 0)] } := by
  have hread : c.ram_read c.pc = (c, c.ram.getD c.pc.toNat 0) := by
    unfold CPU.ram_read
    rw [if_pos hb]
  have hstep : step c = StepRes.exit1
      { c with ir := c.ram.getD c.pc.toNat 0
             , out := c.out ++ [Output.unknownInstr (c.ram.getD c.pc.toNat 0)] } := by
    simp only [step, hread, hu]
  simp [run, hh, hstep]

/-- Witness for `unknown_opcode_exit` at the one-byte program `unkProbeA`
(unrecognized byte 200 at PC = 0). -/
theorem unknown_opcode_exit_witness :
    unkProbeA.halted = false ∧
    (0 ≤ unkProbeA.pc ∧ unkProbeA.pc < (unkProbeA.ram.length : Int)) ∧
    branchtable (unkProbeA.ram.getD unkProbeA.pc.toNat 0) = none ∧
    run (2 + 1) unkProbeA = RunRes.exit1
      { unkProbeA with
          ir := unkProbeA.ram.getD unkProbeA.pc.toNat 0,
          out := unkProbeA.out ++ [Output.unknownInstr (unkProbeA.ram.getD unkProbeA.pc.toNat 0)] } :=
  ⟨rfl, by decide, rfl, unknown_opcode_exit unkProbeA 2 rfl (by decide) rfl⟩

/-! Claim C5. -/

/-- C5 counterexample: for the IR byte 192 = 0b11000000 the decoder's size
formula yields 4, so the size is not always 1, 2, or 3. -/
theorem size_formula_yields_four :
    instruction_size 192 = 4 ∧
    ¬ (instruction_size 192 = 1 ∨ instruction_size 192 = 2 ∨ instruction_size 192 = 3) := by
  decide

/-- An opcode with a branchtable entry is one of the 13 implemented ones. -/
theorem branchtable_isSome_cases (ir : Int) (hs : (branchtable ir).isSome = true) :
    ir = HLT ∨ ir = LDI ∨ ir = PRN ∨ ir = MUL ∨ ir = PUSH ∨ ir = POP ∨ ir = CALL ∨
    ir = RET ∨ ir = ADD ∨ ir = CMP ∨ ir = JMP ∨ ir = JEQ ∨ ir = JNE := by
  by_contra h
  push_neg at h
  obtain ⟨n1, n2, n3, n4, n5, n6, n7, n8, n9, n10, n11, n12, n13⟩ := h
  unfold branchtable at hs
  rw [if_neg n1, if_neg n2, if_neg n3, if_neg n4, if_neg n5, if_neg n6, if_neg n7,
      if_neg n8, if_neg n9, if_neg n10, if_neg n11, if_neg n12, if_neg n13] at hs
  simp at hs

/-- C5 (amended): for every IR byte the decoder computes the instruction size
as ((IR >> 6) & 0b11) + 1 = (IR / 64) % 4 + 1, which always lies in
{1, 2, 3, 4}, and lies in {1, 2, 3} for every opcode present in the
branchtable; the sets-PC flag is bit 4 of IR; both are pure functions of the
IR byte with no effect on machine state. -/
theorem decoder_size_and_sets_pc (ir : Int) (h0 : 0 ≤ ir) (h1 : ir < 256) :
    instruction_size ir = (ir / 64) % 4 + 1 ∧
    (1 ≤ instruction_size ir ∧ instruction_size ir ≤ 4) ∧
    ((branchtable ir).isSome = true →
      (instruction_size ir = 1 ∨ instruction_size ir = 2 ∨ instruction_size ir = 3)) ∧
    (instruction_sets_pc ir = true ↔ (ir / 16) % 2 = 1) := by
  have hfd : Int.fdiv ir 64 = ir / 64 := by
    rw [show (64 : Int) = ((64 : Nat) : Int) from rfl]
    exact fdiv_eq_ediv_of_nonneg ir 64 h0
  have hfd2 : Int.fdiv ir 16 = ir / 16 := by
    rw [show (16 : Int) = ((16 : Nat) : Int) from rfl]
    exact fdiv_eq_ediv_of_nonneg ir 16 h0
  refine ⟨by rw [instruction_size, hfd], ?_, ?_, ?_⟩
  · unfold instruction_size
    rw [hfd]
    omega
  · intro hs
    rcases branchtable_isSome_cases ir hs with h|h|h|h|h|h|h|h|h|h|h|h|h <;> subst h <;> decide
  · unfold instruction_sets_pc
    rw [hfd2]
    simp

/-- Witness for `decoder_size_and_sets_pc` at the LDI opcode byte 0b10000010. -/
theorem decoder_size_and_sets_pc_witness :
    (0 : Int) ≤ 130 ∧ (130 : Int) < 256 ∧
    (instruction_size 130 = ((130 : Int) / 64) % 4 + 1 ∧
     (1 ≤ instruction_size 130 ∧ instruction_size 130 ≤ 4) ∧
     ((branchtable 130).isSome = true →
       (instruction_size 130 = 1 ∨ instruction_size 130 = 2 ∨ instruction_size 130 = 3)) ∧
     (instruction_sets_pc 130 = true ↔ ((130 : Int) / 16) % 2 = 1)) :=
  ⟨by decide, by decide, decoder_size_and_sets_pc 130 (by decide) (by decide)⟩

/-! Claim C10. -/

/-- C10: when PC lies outside [0, 256) at fetch time, `ram_read` logs the
failing address and returns the sentinel -1 instead of faulting; -1 matches
no branchtable entry, so the loop terminates through the
unimplemented-instruction exit path reporting -1 as the instruction, not
through any memory-fault termination. -/
theorem oob_fetch_exits_unimplemented (c : CPU) (f : Nat)
    (hh : c.halted = false)
    (hlen : c.ram.length = 256)
    (hpc : c.pc < 0 ∨ 256 ≤ c.pc) :
    branchtable (-1) = none ∧
    run (f + 1) c = RunRes.exit1
      { c with ir := -1
             , out := c.out ++ [Output.memErr c.pc, Output.unknownInstr (-1)] } := by
  have hbt : branchtable (-1) = none := rfl
  refine ⟨hbt, ?_⟩
  have hb : ¬ (0 ≤ c.pc ∧ c.pc < (c.ram.length : Int)) := by
    rw [hlen]
    omega
  have hread : c.ram_read c.pc = ({ c with out := c.out ++ [Output.memErr c.pc] }, -1) := by
    unfold CPU.ram_read
    rw [if_neg hb]
  have hstep : step c = StepRes.exit1
      { c with ir := -1
             , out := c.out ++ [Output.memErr c.pc, Output.unknownInstr (-1)] } := by
    simp only [step, hread, hbt]
    simp
  simp [run, hh, hstep]

/-- Witness for `oob_fetch_exits_unimplemented` at the initial machine with
PC forced to 300. -/
theorem oob_fetch_exits_unimplemented_witness :
    ({ initCPU with pc := 300 } : CPU).halted = false ∧
    ({ initCPU with pc := 300 } : CPU).ram.length = 256 ∧
    (({ initCPU with pc := 300 } : CPU).pc < 0 ∨ 256 ≤ ({ initCPU with pc := 300 } : CPU).pc) ∧
    (branchtable (-1) = none ∧
     run (0 + 1) { initCPU with pc := 300 } = RunRes.exit1
       { ({ initCPU with pc := 300 } : CPU) with
           ir := -1,
           out := ({ initCPU with pc := 300 } : CPU).out ++
             [Output.memErr ({ initCPU with pc := 300 } : CPU).pc, Output.unknownInstr (-1)] }) :=
  ⟨rfl, by decide, by decide,
   oob_fetch_exits_unimplemented { initCPU with pc := 300 } 0 rfl (by decide) (by decide)⟩

/-! Frame lemmas. -/

@[simp] theorem ram_read_state_ram (c : CPU) (m : Int) : (c.ram_read m).1.ram = c.ram := by
  unfold CPU.ram_read; split <;> rfl

@[simp] theorem ram_read_state_reg (c : CPU) (m : Int) : (c.ram_read m).1.reg = c.reg := by
  unfold CPU.ram_read; split <;> rfl

@[simp] theorem ram_read_state_pc (c : CPU) (m : Int) : (c.ram_read m).1.pc = c.pc := by
  unfold CPU.ram_read; split <;> rfl

@[simp] theorem ram_read_state_ir (c : CPU) (m : Int) : (c.ram_read m).1.ir = c.ir := by
  unfold CPU.ram_read; split <;> rfl

@[simp] theorem ram_read_state_fl (c : CPU) (m : Int) : (c.ram_read m).1.fl = c.fl := by
  unfold CPU.ram_read; split <;> rfl

@[simp] theorem ram_read_state_halted (c : CPU) (m : Int) : (c.ram_read m).1.halted = c.halted := by
  unfold CPU.ram_read; split <;> rfl

@[simp] theorem ram_read_state_mdr (c : CPU) (m : Int) : (c.ram_read m).1.mdr = c.mdr := by
  unfold CPU.ram_read; split <;> rfl

@[simp] theorem ram_write_reg (c : CPU) (m v : Int) : (c.ram_write m v).reg = c.reg := by
  unfold CPU.ram_write; split <;> rfl

@[simp] theorem ram_write_pc (c : CPU) (m v : Int) : (c.ram_write m v).pc = c.pc := by
  unfold CPU.ram_write; split <;> rfl

@[simp] theorem ram_write_ir (c : CPU) (m v : Int) : (c.ram_write m v).ir = c.ir := by
  unfold CPU.ram_write; split <;> rfl

@[simp] theorem ram_write_fl (c : CPU) (m v : Int) : (c.ram_write m v).fl = c.fl := by
  unfold CPU.ram_write; split <;> rfl

@[simp] theorem ram_write_halted (c : CPU) (m v : Int) : (c.ram_write m v).halted = c.halted := by
  unfold CPU.ram_write; split <;> rfl

@[simp] theorem ram_write_mdr (c : CPU) (m v : Int) : (c.ram_write m v).mdr = c.mdr := by
  unfold CPU.ram_write; split <;> rfl

@[simp] theorem setSp_ram (c : CPU) (a : Int) : (c.setSp a).ram = c.ram := rfl

@[simp] theorem setSp_pc (c : CPU) (a : Int) : (c.setSp a).pc = c.pc := rfl

@[simp] theorem setSp_ir (c : CPU) (a : Int) : (c.setSp a).ir = c.ir := rfl

@[simp] theorem setSp_fl (c : CPU) (a : Int) : (c.setSp a).fl = c.fl := rfl

@[simp] theorem setSp_halted (c : CPU) (a : Int) : (c.setSp a).halted = c.halted := rfl

@[simp] theorem setSp_mdr (c : CPU) (a : Int) : (c.setSp a).mdr = c.mdr := rfl

@[simp] theorem setSp_out (c : CPU) (a : Int) : (c.setSp a).out = c.out := rfl

theorem regSet_frame (c : CPU) (i v : Int) (c' : CPU) (h : c.regSet i v = some c') :
    c'.ram = c.ram ∧ c'.pc = c.pc ∧ c'.ir = c.ir ∧ c'.mdr = c.mdr ∧
    c'.fl = c.fl ∧ c'.halted = c.halted ∧ c'.out = c.out := by
  unfold CPU.regSet at h
  rcases Option.map_eq_some'.mp h with ⟨j, hj, hc⟩
  subst hc
  simp

/-! Handler frame lemmas: every handler leaves `ir` unchanged, and the
handlers of non-PC-setting opcodes leave `pc` unchanged. -/

theorem process_HLT_frame (c c' : CPU) (h : process_HLT c = Res.ok c') :
    c'.pc = c.pc ∧ c'.ir = c.ir := by
  unfold process_HLT at h
  injection h with h
  subst h
  exact ⟨rfl, rfl⟩

theorem process_LDI_frame (c c' : CPU) (h : process_LDI c = Res.ok c') :
    c'.pc = c.pc ∧ c'.ir = c.ir := by
  simp only [process_LDI] at h
  split at h
  case h_1 c3 heq =>
    injection h with h
    subst h
    obtain ⟨-, h2, h3, -⟩ := regSet_frame _ _ _ _ heq
    simp [h2, h3, CPU.opA, CPU.opB]
  case h_2 => cases h

theorem process_PRN_frame (c c' : CPU) (h : process_PRN c = Res.ok c') :
    c'.pc = c.pc ∧ c'.ir = c.ir := by
  simp only [process_PRN] at h
  split at h
  case h_1 v heq =>
    injection h with h
    subst h
    simp [CPU.opA]
  case h_2 => cases h

theorem process_MUL_frame (c c' : CPU) (h : process_MUL c = Res.ok c') :
    c'.pc = c.pc ∧ c'.ir = c.ir := by
  simp only [process_MUL] at h
  split at h
  case h_1 => cases h
  case h_2 va hva =>
    split at h
    case h_1 => cases h
    case h_2 vb hvb =>
      split at h
      case h_1 c3 heq =>
        injection h with h
        subst h
        obtain ⟨-, h2, h3, -⟩ := regSet_frame _ _ _ _ heq
        simp [h2, h3, CPU.opA, CPU.opB]
      case h_2 => cases h

theorem process_ADD_frame (c c' : CPU) (h : process_ADD c = Res.ok c') :
    c'.pc = c.pc ∧ c'.ir = c.ir := by
  simp only [process_ADD] at h
  split at h
  case h_1 => cases h
  case h_2 va hva =>
    split at h
    case h_1 => cases h
    case h_2 vb hvb =>
      split at h
      case h_1 c3 heq =>
        injection h with h
        subst h
        obtain ⟨-, h2, h3, -⟩ := regSet_frame _ _ _ _ heq
        simp [h2, h3, CPU.opA, CPU.opB]
      case h_2 => cases h

theorem process_PUSH_frame (c c' : CPU) (h : process_PUSH c = Res.ok c') :
    c'.pc = c.pc ∧ c'.ir = c.ir := by
  simp only [process_PUSH] at h
  split at h
  case h_1 v heq =>
    injection h with h
    subst h
    simp [CPU.opA]
  case h_2 => cases h

theorem process_POP_frame (c c' : CPU) (h : process_POP c = Res.ok c') :
    c'.pc = c.pc ∧ c'.ir = c.ir := by
  simp only [process_POP] at h
  split at h
  case h_1 c4 heq =>
    injection h with h
    subst h
    obtain ⟨-, h2, h3, -⟩ := regSet_frame _ _ _ _ heq
    simp [h2, h3, CPU.opA]
  case h_2 => cases h

theorem process_CMP_frame (c c' : CPU) (h : process_CMP c = Res.ok c') :
    c'.pc = c.pc ∧ c'.ir = c.ir := by
  simp only [process_CMP] at h
  split at h
  case h_1 => cases h
  case h_2 va1 hva1 =>
    split at h
    case h_1 => cases h
    case h_2 vb1 hvb1 =>
      split at h
      · injection h with h
        subst h
        simp [CPU.opA, CPU.opB]
      · split at h
        case h_1 => cases h
        case h_2 va2 hva2 =>
          split at h
          case h_1 => cases h
          case h_2 vb2 hvb2 =>
            split at h
            · injection h with h
              subst h
              simp [CPU.opA, CPU.opB]
            · injection h with h
              subst h
              simp [CPU.opA, CPU.opB]

theorem process_CALL_ir (c c' : CPU) (h : process_CALL c = Res.ok c') :
    c'.ir = c.ir := by
  simp only [process_CALL] at h
  split at h
  case h_1 v heq =>
    injection h with h
    subst h
    simp [CPU.opA]
  case h_2 => cases h

theorem process_RET_ir (c c' : CPU) (h : process_RET c = Res.ok c') :
    c'.ir = c.ir := by
  simp only [process_RET] at h
  injection h with h
  subst h
  simp

theorem process_JMP_ir (c c' : CPU) (h : process_JMP c = Res.ok c') :
    c'.ir = c.ir := by
  simp only [process_JMP] at h
  split at h
  case h_1 v heq =>
    injection h with h
    subst h
    simp [CPU.opA]
  case h_2 => cases h

theorem process_JEQ_ir (c c' : CPU) (h : process_JEQ c = Res.ok c') :
    c'.ir = c.ir := by
  simp only [process_JEQ] at h
  split at h
  · exact process_JMP_ir _ _ h
  · injection h with h
    subst h
    rfl

theorem process_JNE_ir (c c' : CPU) (h : process_JNE c = Res.ok c') :
    c'.ir = c.ir := by
  simp only [process_JNE] at h
  split at h
  · exact process_JMP_ir _ _ h
  · injection h with h
    subst h
    rfl

/-- A dispatched handler never modifies `ir`; a handler dispatched for an
opcode whose sets-PC bit is clear never modifies `pc`. -/
theorem branchtable_ok_frame (v : Int) (hnd : CPU → Res) (c c' : CPU)
    (hv : branchtable v = some hnd) (hok : hnd c = Res.ok c') :
    c'.ir = c.ir ∧ (instruction_sets_pc v = false → c'.pc = c.pc) := by
  have hs : (branchtable v).isSome = true := by rw [hv]; rfl
  rcases branchtable_isSome_cases v hs with h|h|h|h|h|h|h|h|h|h|h|h|h <;> subst h
  · have he : hnd = process_HLT := by
      have : (some process_HLT : Option (CPU → Res)) = some hnd := hv
      injection this with this
      exact this.symm
    subst he
    obtain ⟨h1, h2⟩ := process_HLT_frame _ _ hok
    exact ⟨h2, fun _ => h1⟩
  · have he : hnd = process_LDI := by
      have : (some process_LDI : Option (CPU → Res)) = some hnd := hv
      injection this with this
      exact this.symm
    subst he
    obtain ⟨h1, h2⟩ := process_LDI_frame _ _ hok
    exact ⟨h2, fun _ => h1⟩
  · have he : hnd = process_PRN := by
      have : (some process_PRN : Option (CPU → Res)) = some hnd := hv
      injection this with this
      exact this.symm
    subst he
    obtain ⟨h1, h2⟩ := process_PRN_frame _ _ hok
    exact ⟨h2, fun _ => h1⟩
  · have he : hnd = process_MUL := by
      have : (some process_MUL : Option (CPU → Res)) = some hnd := hv
      injection this with this
      exact this.symm
    subst he
    obtain ⟨h1, h2⟩ := process_MUL_frame _ _ hok
    exact ⟨h2, fun _ => h1⟩
  · have he : hnd = process_PUSH := by
      have : (some process_PUSH : Option (CPU → Res)) = some hnd := hv
      injection this with this
      exact this.symm
    subst he
    obtain ⟨h1, h2⟩ := process_PUSH_frame _ _ hok
    exact ⟨h2, fun _ => h1⟩
  · have he : hnd = process_POP := by
      have : (some process_POP : Option (CPU → Res)) = some hnd := hv
      injection this with this
      exact this.symm
    subst he
    obtain ⟨h1, h2⟩ := process_POP_frame _ _ hok
    exact ⟨h2, fun _ => h1⟩
  · have he : hnd = process_CALL := by
      have : (some process_CALL : Option (CPU → Res)) = some hnd := hv
      injection this with this
      exact this.symm
    subst he
    refine ⟨process_CALL_ir _ _ hok, fun hf => absurd hf (by decide)⟩
  · have he : hnd = process_RET := by
      have : (some process_RET : Option (CPU → Res)) = some hnd := hv
      injection this with this
      exact this.symm
    subst he
    refine ⟨process_RET_ir _ _ hok, fun hf => absurd hf (by decide)⟩
  · have he : hnd = process_ADD := by
      have : (some process_ADD : Option (CPU → Res)) = some hnd := hv
      injection this with this
      exact this.symm
    subst he
    obtain ⟨h1, h2⟩ := process_ADD_frame _ _ hok
    exact ⟨h2, fun _ => h1⟩
  · have he : hnd = process_CMP := by
      have : (some process_CMP : Option (CPU → Res)) = some hnd := hv
      injection this with this
      exact this.symm
    subst he
    obtain ⟨h1, h2⟩ := process_CMP_frame _ _ hok
    exact ⟨h2, fun _ => h1⟩
  · have he : hnd = process_JMP := by
      have : (some process_JMP : Option (CPU → Res)) = some hnd := hv
      injection this with this
      exact this.symm
    subst he
    refine ⟨process_JMP_ir _ _ hok, fun hf => absurd hf (by decide)⟩
  · have he : hnd = process_JEQ := by
      have : (some process_JEQ : Option (CPU → Res)) = some hnd := hv
      injection this with this
      exact this.symm
    subst he
    refine ⟨process_JEQ_ir _ _ hok, fun hf => absurd hf (by decide)⟩
  · have he : hnd = process_JNE := by
      have : (some process_JNE : Option (CPU → Res)) = some hnd := hv
      injection this with this
      exact this.symm
    subst he
    refine ⟨process_JNE_ir _ _ hok, fun hf => absurd hf (by decide)⟩

theorem step_eq_of_ok (c : CPU) (hnd : CPU → Res) (c2 : CPU)
    (hv : branchtable (c.ram_read c.pc).2 = some hnd)
    (hok : hnd { (c.ram_read c.pc).1 with ir := (c.ram_read c.pc).2 } = Res.ok c2) :
    step c = if instruction_sets_pc c2.ir then StepRes.next c2
             else StepRes.next { c2 with pc := c2.pc + instruction_size c2.ir } := by
  simp only [step, hv, hok]

/-- C4: in every execution-loop cycle exactly one agent updates PC: the
dispatched handler never changes `ir`; when bit 4 of the fetched IR is clear
the handler leaves PC untouched and the loop advances PC by the decoded
instruction size after the handler returns; when it is set, the loop performs
no advance and PC is exactly what the handler set. -/
theorem pc_update_single_agent (c : CPU) (hnd : CPU → Res) (c2 : CPU)
    (hv : branchtable (c.ram_read c.pc).2 = some hnd)
    (hok : hnd { (c.ram_read c.pc).1 with ir := (c.ram_read c.pc).2 } = Res.ok c2) :
    c2.ir = (c.ram_read c.pc).2 ∧
    (instruction_sets_pc (c.ram_read c.pc).2 = false →
       c2.pc = c.pc ∧
       step c = StepRes.next { c2 with pc := c.pc + instruction_size (c.ram_read c.pc).2 }) ∧
    (instruction_sets_pc (c.ram_read c.pc).2 = true → step c = StepRes.next c2) := by
  obtain ⟨hir, hpc⟩ := branchtable_ok_frame _ hnd _ _ hv hok
  have hir' : c2.ir = (c.ram_read c.pc).2 := by rw [hir]
  have hstep := step_eq_of_ok c hnd c2 hv hok
  refine ⟨hir', ?_, ?_⟩
  · intro hf
    have hpcpres : c2.pc = c.pc := by
      rw [hpc hf]
      simp
    refine ⟨hpcpres, ?_⟩
    rw [hstep, hir', hf]
    simp [hpcpres]
  · intro ht
    rw [hstep, hir', ht]
    simp

/-- Witness for `pc_update_single_agent` at `ldiProbe` (an LDI cycle). -/
theorem pc_update_single_agent_witness :
    branchtable (ldiProbe.ram_read ldiProbe.pc).2 = some process_LDI ∧
    process_LDI { (ldiProbe.ram_read ldiProbe.pc).1 with ir := (ldiProbe.ram_read ldiProbe.pc).2 }
      = Res.ok ldiProbeAfter ∧
    (ldiProbeAfter.ir = (ldiProbe.ram_read ldiProbe.pc).2 ∧
     (instruction_sets_pc (ldiProbe.ram_read ldiProbe.pc).2 = false →
        ldiProbeAfter.pc = ldiProbe.pc ∧
        step ldiProbe = StepRes.next
          { ldiProbeAfter with
              pc := ldiProbe.pc + instruction_size (ldiProbe.ram_read ldiProbe.pc).2 }) ∧
     (instruction_sets_pc (ldiProbe.ram_read ldiProbe.pc).2 = true →
        step ldiProbe = StepRes.next ldiProbeAfter)) :=
  ⟨rfl, by decide,
   pc_update_single_agent ldiProbe process_LDI ldiProbeAfter rfl (by decide)⟩

/-! Read-threading lemmas. -/

theorem regGet_congr (c1 c2 : CPU) (i : Int) (h : c1.reg = c2.reg) :
    c1.regGet i = c2.regGet i := by
  unfold CPU.regGet
  rw [h]

theorem ram_read_val_congr (c1 c2 : CPU) (m : Int) (h : c1.ram = c2.ram) :
    (c1.ram_read m).2 = (c2.ram_read m).2 := by
  unfold CPU.ram_read
  rw [h]
  by_cases hc : 0 ≤ m ∧ m < (c2.ram.length : Int)
  · rw [if_pos hc, if_pos hc]
  · rw [if_neg hc, if_neg hc]

@[simp] theorem ram_read_state_regGet (c : CPU) (m i : Int) :
    (c.ram_read m).1.regGet i = c.regGet i :=
  regGet_congr _ _ _ (ram_read_state_reg c m)

@[simp] theorem ram_read_state_ram_read_val (c : CPU) (m n : Int) :
    ((c.ram_read m).1.ram_read n).2 = (c.ram_read n).2 :=
  ram_read_val_congr _ _ _ (ram_read_state_ram c m)

theorem process_CMP_spec (c : CPU) (va vb : Int)
    (ha : c.regGet (c.opA).2 = some va)
    (hb : c.regGet (c.opB).2 = some vb) :
    ∃ c', process_CMP c = Res.ok c' ∧
      c'.fl = (if va < vb then 4 else if vb < va then 2 else 1) := by
  simp only [CPU.opA, CPU.opB] at ha hb
  simp only [process_CMP, CPU.opA, CPU.opB, ram_read_state_pc, ram_read_state_regGet,
    ram_read_state_ram_read_val, ha, hb]
  by_cases h1 : va < vb
  · exact ⟨_, by rw [if_pos h1], by simp [h1]⟩
  · rw [if_neg h1]
    by_cases h2 : vb < va
    · exact ⟨_, by rw [if_pos h2], by simp [h1, h2]⟩
    · exact ⟨_, by rw [if_neg h2], by simp [h1, h2]⟩

theorem process_JEQ_spec (c : CPU) (t : Int)
    (hi : c.ir = JEQ)
    (ht : c.regGet (c.opA).2 = some t) :
    ∃ c', process_JEQ c = Res.ok c' ∧
      c'.pc = (if c.fl = 1 then t else c.pc + instruction_size JEQ) ∧
      instruction_size JEQ = 2 := by
  simp only [CPU.opA] at ht
  by_cases hf : c.fl = 1
  · have hrun : process_JEQ c = Res.ok { (c.ram_read (c.pc + 1)).1 with pc := t } := by
      unfold process_JEQ
      rw [if_pos hf]
      simp only [process_JMP, CPU.opA, ram_read_state_regGet, ht]
    exact ⟨_, hrun, by rw [if_pos hf], by decide⟩
  · have hrun : process_JEQ c = Res.ok { c with pc := c.pc + instruction_size c.ir } := by
      unfold process_JEQ
      rw [if_neg hf]
    exact ⟨_, hrun, by rw [if_neg hf]; simp [hi], by decide⟩

theorem process_JNE_spec (c : CPU) (t : Int)
    (hi : c.ir = JNE)
    (ht : c.regGet (c.opA).2 = some t) :
    ∃ c', process_JNE c = Res.ok c' ∧
      c'.pc = (if c.fl = 1 then c.pc + instruction_size JNE else t) ∧
      instruction_size JNE = 2 := by
  simp only [CPU.opA] at ht
  by_cases hf : c.fl = 1
  · have hrun : process_JNE c = Res.ok { c with pc := c.pc + instruction_size c.ir } := by
      unfold process_JNE
      rw [if_neg (not_not_intro hf)]
    exact ⟨_, hrun, by rw [if_pos hf]; simp [hi], by decide⟩
  · have hrun : process_JNE c = Res.ok { (c.ram_read (c.pc + 1)).1 with pc := t } := by
      unfold process_JNE
      rw [if_pos hf]
      simp only [process_JMP, CPU.opA, ram_read_state_regGet, ht]
    exact ⟨_, hrun, by rw [if_neg hf], by decide⟩

/-- C8: CMP compares Register[op_a] with Register[op_b] and sets `fl` to
exactly one of the three mutually exclusive flag values (1 = equal,
2 = greater, 4 = less); JEQ sets PC = Register[op_a] iff the equal flag value
is current and otherwise advances PC by JEQ's own instruction size; JNE sets
PC = Register[op_a] iff the equal flag value is not current and otherwise
advances PC by its own size. -/
theorem cmp_jeq_jne_flag_semantics :
    (∀ (c : CPU) (va vb : Int),
       c.regGet (c.opA).2 = some va → c.regGet (c.opB).2 = some vb →
       ∃ c', process_CMP c = Res.ok c' ∧
         (c'.fl = 1 ∨ c'.fl = 2 ∨ c'.fl = 4) ∧
         (c'.fl = 1 ↔ va = vb) ∧ (c'.fl = 2 ↔ vb < va) ∧ (c'.fl = 4 ↔ va < vb)) ∧
    (∀ (c : CPU) (t : Int), c.ir = JEQ → c.regGet (c.opA).2 = some t →
       ∃ c', process_JEQ c = Res.ok c' ∧
         c'.pc = (if c.fl = 1 then t else c.pc + instruction_size JEQ) ∧
         instruction_size JEQ = 2) ∧
    (∀ (c : CPU) (t : Int), c.ir = JNE → c.regGet (c.opA).2 = some t →
       ∃ c', process_JNE c = Res.ok c' ∧
         c'.pc = (if c.fl = 1 then c.pc + instruction_size JNE else t) ∧
         instruction_size JNE = 2) := by
  refine ⟨?_, ?_, ?_⟩
  · intro c va vb ha hb
    obtain ⟨c', hc, hfl⟩ := process_CMP_spec c va vb ha hb
    refine ⟨c', hc, ?_⟩
    rw [hfl]
    split_ifs with h1 h2 <;> refine ⟨by omega, by omega, by omega, by omega⟩
  · intro c t hi ht
    exact process_JEQ_spec c t hi ht
  · intro c t hi ht
    exact process_JNE_spec c t hi ht

/-- Witness for `cmp_jeq_jne_flag_semantics` at the three probe states. -/
theorem cmp_jeq_jne_flag_semantics_witness :
    (cmpProbe.regGet (cmpProbe.opA).2 = some 5 ∧
     cmpProbe.regGet (cmpProbe.opB).2 = some 5 ∧
     (∃ c', process_CMP cmpProbe = Res.ok c' ∧
        (c'.fl = 1 ∨ c'.fl = 2 ∨ c'.fl = 4) ∧
        (c'.fl = 1 ↔ (5 : Int) = 5) ∧ (c'.fl = 2 ↔ (5 : Int) < 5) ∧ (c'.fl = 4 ↔ (5 : Int) < 5))) ∧
    (jeqProbe.ir = JEQ ∧ jeqProbe.regGet (jeqProbe.opA).2 = some 33 ∧
     (∃ c', process_JEQ jeqProbe = Res.ok c' ∧
        c'.pc = (if jeqProbe.fl = 1 then 33 else jeqProbe.pc + instruction_size JEQ) ∧
        instruction_size JEQ = 2)) ∧
    (jneProbe.ir = JNE ∧ jneProbe.regGet (jneProbe.opA).2 = some 44 ∧
     (∃ c', process_JNE jneProbe = Res.ok c' ∧
        c'.pc = (if jneProbe.fl = 1 then jneProbe.pc + instruction_size JNE else 44) ∧
        instruction_size JNE = 2)) :=
  ⟨⟨by decide, by decide, cmp_jeq_jne_flag_semantics.1 cmpProbe 5 5 (by decide) (by decide)⟩,
   ⟨rfl, by decide, cmp_jeq_jne_flag_semantics.2.1 jeqProbe 33 rfl (by decide)⟩,
   ⟨rfl, by decide, cmp_jeq_jne_flag_semantics.2.2 jneProbe 44 rfl (by decide)⟩⟩

theorem memOK_of_ram_eq (c1 c2 : CPU) (h : c2.ram = c1.ram) (h1 : MemOK c1) : MemOK c2 := by
  unfold MemOK at h1 ⊢
  rw [h]
  exact h1

theorem ram_write_memOK (c : CPU) (m v : Int) (h : MemOK c) : MemOK (c.ram_write m v) := by
  unfold CPU.ram_write
  split
  · intro x hx
    rcases List.mem_or_eq_of_mem_set hx with h1 | h2
    · exact h x h1
    · subst h2
      constructor
      · exact Int.emod_nonneg v (by decide)
      · exact Int.emod_lt_of_pos v (by decide)
  · exact h

theorem process_HLT_memOK (c : CPU) (h : MemOK c) : MemOK (process_HLT c).state :=
  memOK_of_ram_eq c _ rfl h

theorem process_LDI_memOK (c : CPU) (h : MemOK c) : MemOK (process_LDI c).state := by
  simp only [process_LDI]
  split
  case h_1 c3 heq =>
    obtain ⟨h1, -⟩ := regSet_frame _ _ _ _ heq
    exact memOK_of_ram_eq c _ (by simp [Res.state, h1, CPU.opA, CPU.opB]) h
  case h_2 =>
    exact memOK_of_ram_eq c _ (by simp [Res.state, CPU.opA, CPU.opB]) h

theorem process_PRN_memOK (c : CPU) (h : MemOK c) : MemOK (process_PRN c).state := by
  simp only [process_PRN]
  split
  case h_1 v heq =>
    exact memOK_of_ram_eq c _ (by simp [Res.state, CPU.opA]) h
  case h_2 =>
    exact memOK_of_ram_eq c _ (by simp [Res.state, CPU.opA]) h

theorem process_MUL_memOK (c : CPU) (h : MemOK c) : MemOK (process_MUL c).state := by
  simp only [process_MUL]
  split
  case h_1 => exact memOK_of_ram_eq c _ (by simp [Res.state, CPU.opA]) h
  case h_2 va hva =>
    split
    case h_1 => exact memOK_of_ram_eq c _ (by simp [Res.state, CPU.opA, CPU.opB]) h
    case h_2 vb hvb =>
      split
      case h_1 c3 heq =>
        obtain ⟨h1, -⟩ := regSet_frame _ _ _ _ heq
        exact memOK_of_ram_eq c _ (by simp [Res.state, h1, CPU.opA, CPU.opB]) h
      case h_2 => exact memOK_of_ram_eq c _ (by simp [Res.state, CPU.opA, CPU.opB]) h

theorem process_ADD_memOK (c : CPU) (h : MemOK c) : MemOK (process_ADD c).state := by
  simp only [process_ADD]
  split
  case h_1 => exact memOK_of_ram_eq c _ (by simp [Res.state, CPU.opA]) h
  case h_2 va hva =>
    split
    case h_1 => exact memOK_of_ram_eq c _ (by simp [Res.state, CPU.opA, CPU.opB]) h
    case h_2 vb hvb =>
      split
      case h_1 c3 heq =>
        obtain ⟨h1, -⟩ := regSet_frame _ _ _ _ heq
        exact memOK_of_ram_eq c _ (by simp [Res.state, h1, CPU.opA, CPU.opB]) h
      case h_2 => exact memOK_of_ram_eq c _ (by simp [Res.state, CPU.opA, CPU.opB]) h

theorem process_PUSH_memOK (c : CPU) (h : MemOK c) : MemOK (process_PUSH c).state := by
  simp only [process_PUSH]
  split
  case h_1 v heq =>
    refine ram_write_memOK _ _ _ ?_
    exact memOK_of_ram_eq c _ (by simp [CPU.opA]) h
  case h_2 =>
    exact memOK_of_ram_eq c _ (by simp [Res.state, CPU.opA]) h

theorem process_POP_memOK (c : CPU) (h : MemOK c) : MemOK (process_POP c).state := by
  simp only [process_POP]
  split
  case h_1 c4 heq =>
    obtain ⟨h1, -⟩ := regSet_frame _ _ _ _ heq
    exact memOK_of_ram_eq c _ (by simp [Res.state, h1, CPU.opA]) h
  case h_2 =>
    exact memOK_of_ram_eq c _ (by simp [Res.state, CPU.opA]) h

theorem process_CALL_memOK (c : CPU) (h : MemOK c) : MemOK (process_CALL c).state := by
  simp only [process_CALL]
  have hw : MemOK ((c.setSp (c.sp - 1)).ram_write (c.setSp (c.sp - 1)).sp
      ((c.setSp (c.sp - 1)).pc + instruction_size (c.setSp (c.sp - 1)).ir)) := by
    refine ram_write_memOK _ _ _ ?_
    exact memOK_of_ram_eq c _ (by simp) h
  split
  case h_1 v heq =>
    exact memOK_of_ram_eq _ _ (by simp [Res.state, CPU.opA]) hw
  case h_2 =>
    exact memOK_of_ram_eq _ _ (by simp [Res.state, CPU.opA]) hw

theorem process_RET_memOK (c : CPU) (h : MemOK c) : MemOK (process_RET c).state := by
  simp only [process_RET]
  exact memOK_of_ram_eq c _ (by simp [Res.state]) h

theorem process_CMP_memOK (c : CPU) (h : MemOK c) : MemOK (process_CMP c).state := by
  simp only [process_CMP]
  split
  case h_1 => exact memOK_of_ram_eq c _ (by simp [Res.state, CPU.opA]) h
  case h_2 va1 hva1 =>
    split
    case h_1 => exact memOK_of_ram_eq c _ (by simp [Res.state, CPU.opA, CPU.opB]) h
    case h_2 vb1 hvb1 =>
      split
      · exact memOK_of_ram_eq c _ (by simp [Res.state, CPU.opA, CPU.opB]) h
      · split
        case h_1 => exact memOK_of_ram_eq c _ (by simp [Res.state, CPU.opA, CPU.opB]) h
        case h_2 va2 hva2 =>
          split
          case h_1 => exact memOK_of_ram_eq c _ (by simp [Res.state, CPU.opA, CPU.opB]) h
          case h_2 vb2 hvb2 =>
            split
            · exact memOK_of_ram_eq c _ (by simp [Res.state, CPU.opA, CPU.opB]) h
            · exact memOK_of_ram_eq c _ (by simp [Res.state, CPU.opA, CPU.opB]) h

theorem process_JMP_memOK (c : CPU) (h : MemOK c) : MemOK (process_JMP c).state := by
  simp only [process_JMP]
  split
  case h_1 v heq => exact memOK_of_ram_eq c _ (by simp [Res.state, CPU.opA]) h
  case h_2 => exact memOK_of_ram_eq c _ (by simp [Res.state, CPU.opA]) h

theorem process_JEQ_memOK (c : CPU) (h : MemOK c) : MemOK (process_JEQ c).state := by
  simp only [process_JEQ]
  split
  · exact process_JMP_memOK c h
  · exact memOK_of_ram_eq c _ (by simp [Res.state]) h

theorem process_JNE_memOK (c : CPU) (h : MemOK c) : MemOK (process_JNE c).state := by
  simp only [process_JNE]
  split
  · exact process_JMP_memOK c h
  · exact memOK_of_ram_eq c _ (by simp [Res.state]) h

theorem branchtable_memOK (v : Int) (hnd : CPU → Res) (c : CPU)
    (hv : branchtable v = some hnd) (h : MemOK c) : MemOK (hnd c).state := by
  have hs : (branchtable v).isSome = true := by rw [hv]; rfl
  rcases branchtable_isSome_cases v hs with he|he|he|he|he|he|he|he|he|he|he|he|he <;> subst he
  · have he : hnd = process_HLT := by
      have h2 : (some process_HLT : Option (CPU → Res)) = some hnd := hv
      injection h2 with h2
      exact h2.symm
    subst he
    exact process_HLT_memOK c h
  · have he : hnd = process_LDI := by
      have h2 : (some process_LDI : Option (CPU → Res)) = some hnd := hv
      injection h2 with h2
      exact h2.symm
    subst he
    exact process_LDI_memOK c h
  · have he : hnd = process_PRN := by
      have h2 : (some process_PRN : Option (CPU → Res)) = some hnd := hv
      injection h2 with h2
      exact h2.symm
    subst he
    exact process_PRN_memOK c h
  · have he : hnd = process_MUL := by
      have h2 : (some process_MUL : Option (CPU → Res)) = some hnd := hv
      injection h2 with h2
      exact h2.symm
    subst he
    exact process_MUL_memOK c h
  · have he : hnd = process_PUSH := by
      have h2 : (some process_PUSH : Option (CPU → Res)) = some hnd := hv
      injection h2 with h2
      exact h2.symm
    subst he
    exact process_PUSH_memOK c h
  · have he : hnd = process_POP := by
      have h2 : (some process_POP : Option (CPU → Res)) = some hnd := hv
      injection h2 with h2
      exact h2.symm
    subst he
    exact process_POP_memOK c h
  · have he : hnd = process_CALL := by
      have h2 : (some process_CALL : Option (CPU → Res)) = some hnd := hv
      injection h2 with h2
      exact h2.symm
    subst he
    exact process_CALL_memOK c h
  · have he : hnd = process_RET := by
      have h2 : (some process_RET : Option (CPU → Res)) = some hnd := hv
      injection h2 with h2
      exact h2.symm
    subst he
    exact process_RET_memOK c h
  · have he : hnd = process_ADD := by
      have h2 : (some process_ADD : Option (CPU → Res)) = some hnd := hv
      injection h2 with h2
      exact h2.symm
    subst he
    exact process_ADD_memOK c h
  · have he : hnd = process_CMP := by
      have h2 : (some process_CMP : Option (CPU → Res)) = some hnd := hv
      injection h2 with h2
      exact h2.symm
    subst he
    exact process_CMP_memOK c h
  · have he : hnd = process_JMP := by
      have h2 : (some process_JMP : Option (CPU → Res)) = some hnd := hv
      injection h2 with h2
      exact h2.symm
    subst he
    exact process_JMP_memOK c h
  · have he : hnd = process_JEQ := by
      have h2 : (some process_JEQ : Option (CPU → Res)) = some hnd := hv
      injection h2 with h2
      exact h2.symm
    subst he
    exact process_JEQ_memOK c h
  · have he : hnd = process_JNE := by
      have h2 : (some process_JNE : Option (CPU → Res)) = some hnd := hv
      injection h2 with h2
      exact h2.symm
    subst he
    exact process_JNE_memOK c h

theorem step_memOK (c : CPU) (h : MemOK c) : MemOK (step c).state := by
  have h1 : MemOK { (c.ram_read c.pc).1 with ir := (c.ram_read c.pc).2 } :=
    memOK_of_ram_eq c _ (by simp) h
  simp only [step]
  split
  case h_1 heq =>
    exact memOK_of_ram_eq c _ (by simp [StepRes.state]) h
  case h_2 hnd heq =>
    have h2 := branchtable_memOK _ hnd _ heq h1
    split
    case h_1 c2 heq2 =>
      rw [heq2] at h2
      split
      · exact h2
      · exact memOK_of_ram_eq c2 _ (by simp [StepRes.state, Res.state]) h2
    case h_2 c2 heq2 =>
      rw [heq2] at h2
      exact h2

theorem run_memOK (f : Nat) (c : CPU) (h : MemOK c) : MemOK (run f c).state := by
  induction f generalizing c with
  | zero => exact h
  | succ f ih =>
    simp only [run]
    split
    · exact h
    · have hs := step_memOK c h
      cases heq : step c with
      | next c2 =>
        rw [heq] at hs
        simp only [heq]
        exact ih c2 hs
      | exit1 c2 =>
        rw [heq] at hs
        simp only [heq]
        exact hs
      | indexErr c2 =>
        rw [heq] at hs
        simp only [heq]
        exact hs

/-- C9: every in-bounds `ram_write` masks the stored value to 8 bits, so the
invariant that every memory cell lies in [0,255] is preserved by every
dispatched instruction handler, by every loop cycle (`step`), and by the whole
execution (`run`), for any fuel and any starting state satisfying it. -/
theorem mem_cells_byte_invariant :
    (∀ (c : CPU) (m v : Int), MemOK c → MemOK (c.ram_write m v)) ∧
    (∀ (v : Int) (hnd : CPU → Res) (c : CPU),
       branchtable v = some hnd → MemOK c → MemOK (hnd c).state) ∧
    (∀ c : CPU, MemOK c → MemOK (step c).state) ∧
    (∀ (f : Nat) (c : CPU), MemOK c → MemOK (run f c).state) :=
  ⟨fun c m v h => ram_write_memOK c m v h,
   fun v hnd c hv h => branchtable_memOK v hnd c hv h,
   fun c h => step_memOK c h,
   fun f c h => run_memOK f c h⟩

/-- Witness for `mem_cells_byte_invariant` at the initial machine (with an
over-wide write 999, a PUSH handler run, one step and a five-step run). -/
theorem mem_cells_byte_invariant_witness :
    MemOK initCPU ∧
    MemOK (initCPU.ram_write 3 999) ∧
    (branchtable PUSH = some process_PUSH ∧ MemOK (process_PUSH initCPU).state) ∧
    MemOK (step initCPU).state ∧
    MemOK (run 5 initCPU).state :=
  ⟨by unfold MemOK; decide,
   mem_cells_byte_invariant.1 initCPU 3 999 (by unfold MemOK; decide),
   ⟨rfl, mem_cells_byte_invariant.2.1 PUSH process_PUSH initCPU rfl (by unfold MemOK; decide)⟩,
   mem_cells_byte_invariant.2.2.1 initCPU (by unfold MemOK; decide),
   mem_cells_byte_invariant.2.2.2 5 initCPU (by unfold MemOK; decide)⟩

theorem getD_set_self (l : List Int) (i : Nat) (v : Int) (h : i < l.length) :
    (l.set i v).getD i 0 = v := by
  induction l generalizing i with
  | nil => simp at h
  | cons a t ih =>
    cases i with
    | zero => simp
    | succ i => simpa using ih i (by simpa using h)

theorem getD_set_ne (l : List Int) (i j : Nat) (v : Int) (h : i ≠ j) :
    (l.set i v).getD j 0 = l.getD j 0 := by
  induction l generalizing i j with
  | nil => simp
  | cons a t ih =>
    cases i with
    | zero =>
      cases j with
      | zero => exact absurd rfl h
      | succ j => simp
    | succ i =>
      cases j with
      | zero => simp
      | succ j => simpa using ih i j (fun hh => h (by omega))

theorem ram_read_in (c : CPU) (m : Int) (h0 : 0 ≤ m) (h1 : m < (c.ram.length : Int)) :
    c.ram_read m = (c, c.ram.getD m.toNat 0) := by
  unfold CPU.ram_read
  rw [if_pos ⟨h0, h1⟩]

theorem ram_write_in (c : CPU) (m v : Int) (h0 : 0 ≤ m) (h1 : m < (c.ram.length : Int)) :
    c.ram_write m v = { c with ram := c.ram.set m.toNat (v % 256) } := by
  unfold CPU.ram_write
  rw [if_pos ⟨h0, h1⟩]

theorem regGet_in (c : CPU) (i : Int) (h0 : 0 ≤ i) (h1 : i < (c.reg.length : Int)) :
    c.regGet i = some (c.reg.getD i.toNat 0) := by
  unfold CPU.regGet pyIdx
  rw [if_pos ⟨h0, h1⟩]
  rfl

theorem regSet_in (c : CPU) (i v : Int) (h0 : 0 ≤ i) (h1 : i < (c.reg.length : Int)) :
    c.regSet i v = some { c with reg := c.reg.set i.toNat v } := by
  unfold CPU.regSet pyIdx
  rw [if_pos ⟨h0, h1⟩]
  rfl

theorem process_PUSH_eq (c : CPU) (r : Int)
    (hlen : c.ram.length = 256) (hreg : c.reg.length = 8)
    (hpc0 : 0 ≤ c.pc) (hpc1 : c.pc + 1 < 256)
    (hr : c.ram.getD (c.pc + 1).toNat 0 = r)
    (hr8 : 0 ≤ r ∧ r < 8) :
    process_PUSH c = Res.ok
      { ram := c.ram.set ((c.sp - 1) % 256).toNat
                 (((c.reg.set 7 ((c.sp - 1) % 256)).getD r.toNat 0) % 256),
        reg := c.reg.set 7 ((c.sp - 1) % 256),
        pc := c.pc, ir := c.ir, mar := c.mar,
        mdr := (c.reg.set 7 ((c.sp - 1) % 256)).getD r.toNat 0,
        fl := c.fl, halted := c.halted, out := c.out } := by
  obtain ⟨ram, reg, pc, ir0, mar0, mdr0, fl0, hlt0, out0⟩ := c
  simp only [CPU.sp] at *
  unfold process_PUSH
  simp only [CPU.setSp, CPU.opA, CPU.sp]
  rw [ram_read_in _ _ (by omega) (by simp only []; omega)]
  simp only [hr]
  rw [regGet_in _ _ (by omega) (by simp only [List.length_set]; omega)]
  simp only [CPU.sp]
  rw [getD_set_self reg 7 ((reg.getD 7 0 - 1) % 256) (by omega)]
  rw [ram_write_in _ _ _ (Int.emod_nonneg _ (by decide)) (by simp only []; have := Int.emod_lt_of_pos (reg.getD 7 0 - 1) (show (0:Int) < 256 from by decide); omega)]

theorem process_POP_eq (c : CPU) (r : Int)
    (hlen : c.ram.length = 256) (hreg : c.reg.length = 8)
    (hpc0 : 0 ≤ c.pc) (hpc1 : c.pc + 1 < 256)
    (hsp : 0 ≤ c.sp ∧ c.sp < 256)
    (hr : c.ram.getD (c.pc + 1).toNat 0 = r)
    (hr8 : 0 ≤ r ∧ r < 8) :
    process_POP c = Res.ok
      { ram := c.ram,
        reg := (c.reg.set r.toNat (c.ram.getD c.sp.toNat 0)).set 7
                 (((c.reg.set r.toNat (c.ram.getD c.sp.toNat 0)).getD 7 0 + 1) % 256),
        pc := c.pc, ir := c.ir, mar := c.mar,
        mdr := c.ram.getD c.sp.toNat 0,
        fl := c.fl, halted := c.halted, out := c.out } := by
  obtain ⟨ram, reg, pc, ir0, mar0, mdr0, fl0, hlt0, out0⟩ := c
  simp only [CPU.sp] at *
  unfold process_POP
  simp only [CPU.opA, CPU.sp]
  rw [ram_read_in _ (reg.getD 7 0) (by omega) (by simp only []; omega)]
  simp only []
  rw [ram_read_in _ (pc + 1) (by omega) (by simp only []; omega)]
  simp only [hr]
  rw [regSet_in _ _ _ (by omega) (by simp only []; omega)]
  simp only [CPU.setSp, CPU.sp]

theorem process_CALL_eq (c : CPU) (r : Int)
    (hlen : c.ram.length = 256) (hreg : c.reg.length = 8)
    (hpc0 : 0 ≤ c.pc) (hpc1 : c.pc + 1 < 256)
    (hnc : (c.sp - 1) % 256 ≠ c.pc + 1)
    (hr : c.ram.getD (c.pc + 1).toNat 0 = r)
    (hr8 : 0 ≤ r ∧ r < 8) :
    process_CALL c = Res.ok
      { ram := c.ram.set ((c.sp - 1) % 256).toNat ((c.pc + instruction_size c.ir) % 256),
        reg := c.reg.set 7 ((c.sp - 1) % 256),
        pc := (c.reg.set 7 ((c.sp - 1) % 256)).getD r.toNat 0,
        ir := c.ir, mar := c.mar, mdr := c.mdr,
        fl := c.fl, halted := c.halted, out := c.out } := by
  obtain ⟨ram, reg, pc, ir0, mar0, mdr0, fl0, hlt0, out0⟩ := c
  simp only [CPU.sp] at *
  unfold process_CALL
  simp only [CPU.setSp, CPU.sp, CPU.opA]
  rw [getD_set_self reg 7 ((reg.getD 7 0 - 1) % 256) (by omega)]
  rw [ram_write_in _ _ _ (Int.emod_nonneg _ (by decide))
    (by simp only []
        have := Int.emod_lt_of_pos (reg.getD 7 0 - 1) (show (0:Int) < 256 from by decide)
        omega)]
  simp only []
  rw [ram_read_in _ (pc + 1) (by omega) (by simp only [List.length_set]; omega)]
  simp only []
  rw [getD_set_ne ram ((reg.getD 7 0 - 1) % 256).toNat (pc + 1).toNat _ (by omega)]
  rw [hr]
  rw [regGet_in _ _ (by omega) (by simp only [List.length_set]; omega)]

theorem process_RET_eq (c : CPU)
    (hlen : c.ram.length = 256) (hreg : c.reg.length = 8)
    (hsp : 0 ≤ c.sp ∧ c.sp < 256) :
    process_RET c = Res.ok
      { ram := c.ram, reg := c.reg.set 7 ((c.sp + 1) % 256),
        pc := c.ram.getD c.sp.toNat 0, ir := c.ir, mar := c.mar, mdr := c.mdr,
        fl := c.fl, halted := c.halted, out := c.out } := by
  obtain ⟨ram, reg, pc, ir0, mar0, mdr0, fl0, hlt0, out0⟩ := c
  simp only [CPU.sp] at *
  unfold process_RET
  simp only [CPU.sp]
  rw [ram_read_in _ (reg.getD 7 0) (by omega) (by simp only []; omega)]
  simp only [CPU.setSp, CPU.sp]

theorem step_PUSH (c : CPU) (r : Int)
    (hlen : c.ram.length = 256) (hreg : c.reg.length = 8)
    (hpc0 : 0 ≤ c.pc) (hpc1 : c.pc + 1 < 256)
    (hf : c.ram.getD c.pc.toNat 0 = PUSH)
    (hr : c.ram.getD (c.pc + 1).toNat 0 = r)
    (hr8 : 0 ≤ r ∧ r < 8) :
    step c = StepRes.next
      { ram := c.ram.set ((c.sp - 1) % 256).toNat
                 (((c.reg.set 7 ((c.sp - 1) % 256)).getD r.toNat 0) % 256),
        reg := c.reg.set 7 ((c.sp - 1) % 256),
        pc := c.pc + 2, ir := PUSH, mar := c.mar,
        mdr := (c.reg.set 7 ((c.sp - 1) % 256)).getD r.toNat 0,
        fl := c.fl, halted := c.halted, out := c.out } := by
  have hread : c.ram_read c.pc = (c, PUSH) := by
    rw [ram_read_in _ _ hpc0 (by omega), hf]
  have hv : branchtable (c.ram_read c.pc).2 = some process_PUSH := by
    rw [hread]
    rfl
  have hok : process_PUSH { (c.ram_read c.pc).1 with ir := (c.ram_read c.pc).2 } = Res.ok
      { ram := c.ram.set ((c.sp - 1) % 256).toNat
                 (((c.reg.set 7 ((c.sp - 1) % 256)).getD r.toNat 0) % 256),
        reg := c.reg.set 7 ((c.sp - 1) % 256),
        pc := c.pc, ir := PUSH, mar := c.mar,
        mdr := (c.reg.set 7 ((c.sp - 1) % 256)).getD r.toNat 0,
        fl := c.fl, halted := c.halted, out := c.out } := by
    rw [hread]
    exact process_PUSH_eq { c with ir := PUSH } r hlen hreg hpc0 hpc1 hr hr8
  have hs := step_eq_of_ok c process_PUSH _ hv hok
  rw [hs]
  rfl

theorem step_POP (c : CPU) (r : Int)
    (hlen : c.ram.length = 256) (hreg : c.reg.length = 8)
    (hpc0 : 0 ≤ c.pc) (hpc1 : c.pc + 1 < 256)
    (hsp : 0 ≤ c.sp ∧ c.sp < 256)
    (hf : c.ram.getD c.pc.toNat 0 = POP)
    (hr : c.ram.getD (c.pc + 1).toNat 0 = r)
    (hr8 : 0 ≤ r ∧ r < 8) :
    step c = StepRes.next
      { ram := c.ram,
        reg := (c.reg.set r.toNat (c.ram.getD c.sp.toNat 0)).set 7
                 (((c.reg.set r.toNat (c.ram.getD c.sp.toNat 0)).getD 7 0 + 1) % 256),
        pc := c.pc + 2, ir := POP, mar := c.mar,
        mdr := c.ram.getD c.sp.toNat 0,
        fl := c.fl, halted := c.halted, out := c.out } := by
  have hread : c.ram_read c.pc = (c, POP) := by
    rw [ram_read_in _ _ hpc0 (by omega), hf]
  have hv : branchtable (c.ram_read c.pc).2 = some process_POP := by
    rw [hread]
    rfl
  have hok : process_POP { (c.ram_read c.pc).1 with ir := (c.ram_read c.pc).2 } = Res.ok
      { ram := c.ram,
        reg := (c.reg.set r.toNat (c.ram.getD c.sp.toNat 0)).set 7
                 (((c.reg.set r.toNat (c.ram.getD c.sp.toNat 0)).getD 7 0 + 1) % 256),
        pc := c.pc, ir := POP, mar := c.mar,
        mdr := c.ram.getD c.sp.toNat 0,
        fl := c.fl, halted := c.halted, out := c.out } := by
    rw [hread]
    exact process_POP_eq { c with ir := POP } r hlen hreg hpc0 hpc1 hsp hr hr8
  have hs := step_eq_of_ok c process_POP _ hv hok
  rw [hs]
  rfl

theorem step_CALL (c : CPU) (r : Int)
    (hlen : c.ram.length = 256) (hreg : c.reg.length = 8)
    (hpc0 : 0 ≤ c.pc) (hpc1 : c.pc + 1 < 256)
    (hnc : (c.sp - 1) % 256 ≠ c.pc + 1)
    (hf : c.ram.getD c.pc.toNat 0 = CALL)
    (hr : c.ram.getD (c.pc + 1).toNat 0 = r)
    (hr8 : 0 ≤ r ∧ r < 8) :
    step c = StepRes.next
      { ram := c.ram.set ((c.sp - 1) % 256).toNat ((c.pc + 2) % 256),
        reg := c.reg.set 7 ((c.sp - 1) % 256),
        pc := (c.reg.set 7 ((c.sp - 1) % 256)).getD r.toNat 0,
        ir := CALL, mar := c.mar, mdr := c.mdr,
        fl := c.fl, halted := c.halted, out := c.out } := by
  have hread : c.ram_read c.pc = (c, CALL) := by
    rw [ram_read_in _ _ hpc0 (by omega), hf]
  have hv : branchtable (c.ram_read c.pc).2 = some process_CALL := by
    rw [hread]
    rfl
  have hok : process_CALL { (c.ram_read c.pc).1 with ir := (c.ram_read c.pc).2 } = Res.ok
      { ram := c.ram.set ((c.sp - 1) % 256).toNat ((c.pc + 2) % 256),
        reg := c.reg.set 7 ((c.sp - 1) % 256),
        pc := (c.reg.set 7 ((c.sp - 1) % 256)).getD r.toNat 0,
        ir := CALL, mar := c.mar, mdr := c.mdr,
        fl := c.fl, halted := c.halted, out := c.out } := by
    rw [hread]
    exact process_CALL_eq { c with ir := CALL } r hlen hreg hpc0 hpc1 hnc hr hr8
  have hs := step_eq_of_ok c process_CALL _ hv hok
  rw [hs]
  rfl

theorem step_RET (c : CPU)
    (hlen : c.ram.length = 256) (hreg : c.reg.length = 8)
    (hpc0 : 0 ≤ c.pc) (hpc1 : c.pc < 256)
    (hsp : 0 ≤ c.sp ∧ c.sp < 256)
    (hf : c.ram.getD c.pc.toNat 0 = RET) :
    step c = StepRes.next
      { ram := c.ram, reg := c.reg.set 7 ((c.sp + 1) % 256),
        pc := c.ram.getD c.sp.toNat 0, ir := RET, mar := c.mar, mdr := c.mdr,
        fl := c.fl, halted := c.halted, out := c.out } := by
  have hread : c.ram_read c.pc = (c, RET) := by
    rw [ram_read_in _ _ hpc0 (by omega), hf]
  have hv : branchtable (c.ram_read c.pc).2 = some process_RET := by
    rw [hread]
    rfl
  have hok : process_RET { (c.ram_read c.pc).1 with ir := (c.ram_read c.pc).2 } = Res.ok
      { ram := c.ram, reg := c.reg.set 7 ((c.sp + 1) % 256),
        pc := c.ram.getD c.sp.toNat 0, ir := RET, mar := c.mar, mdr := c.mdr,
        fl := c.fl, halted := c.halted, out := c.out } := by
    rw [hread]
    exact process_RET_eq { c with ir := RET } hlen hreg hsp
  have hs := step_eq_of_ok c process_RET _ hv hok
  rw [hs]
  rfl

/-- C6: for every register index r, every 8-bit register value v, and every
machine state whose stack pointer lies inside memory and whose stack slot does
not clobber the instruction stream, executing PUSH of register r followed by
POP into register r leaves Register[r] = v and restores SP to its pre-PUSH
value (the PC moving past both instructions). -/
theorem push_pop_roundtrip (c : CPU) (r v : Int)
    (hlen : c.ram.length = 256) (hreg : c.reg.length = 8)
    (hpc0 : 0 ≤ c.pc) (hpc3 : c.pc + 3 < 256)
    (hm0 : c.ram.getD c.pc.toNat 0 = PUSH)
    (hm1 : c.ram.getD (c.pc + 1).toNat 0 = r)
    (hm2 : c.ram.getD (c.pc + 2).toNat 0 = POP)
    (hm3 : c.ram.getD (c.pc + 3).toNat 0 = r)
    (hr8 : 0 ≤ r ∧ r < 8)
    (hsp : 0 ≤ c.sp ∧ c.sp < 256)
    (hv : c.regGet r = some v) (hv8 : 0 ≤ v ∧ v < 256)
    (hnc2 : (c.sp - 1) % 256 ≠ c.pc + 2) (hnc3 : (c.sp - 1) % 256 ≠ c.pc + 3) :
    ∃ c1 c2 : CPU, step c = StepRes.next c1 ∧ step c1 = StepRes.next c2 ∧
      c2.regGet r = some v ∧ c2.sp = c.sp ∧ c2.pc = c.pc + 4 := by
  have hsp'0 : 0 ≤ (c.sp - 1) % 256 := Int.emod_nonneg _ (by decide)
  have hsp'lt : (c.sp - 1) % 256 < 256 := Int.emod_lt_of_pos _ (by decide)
  have hv' : c.reg.getD r.toNat 0 = v := by
    rw [regGet_in c r hr8.1 (by omega)] at hv
    exact Option.some.inj hv
  have h1 := step_PUSH c r hlen hreg hpc0 (by omega) hm0 hm1 hr8
  have c1lenram : (c.ram.set ((c.sp - 1) % 256).toNat
      (((c.reg.set 7 ((c.sp - 1) % 256)).getD r.toNat 0) % 256)).length = 256 := by
    rw [List.length_set, hlen]
  have c1lenreg : (c.reg.set 7 ((c.sp - 1) % 256)).length = 8 := by
    rw [List.length_set, hreg]
  have c1sp : (c.reg.set 7 ((c.sp - 1) % 256)).getD 7 0 = (c.sp - 1) % 256 :=
    getD_set_self _ _ _ (by omega)
  have c1f : (c.ram.set ((c.sp - 1) % 256).toNat
        (((c.reg.set 7 ((c.sp - 1) % 256)).getD r.toNat 0) % 256)).getD (c.pc + 2).toNat 0
      = POP := by
    rw [getD_set_ne _ _ _ _ (by omega)]
    exact hm2
  have c1r : (c.ram.set ((c.sp - 1) % 256).toNat
        (((c.reg.set 7 ((c.sp - 1) % 256)).getD r.toNat 0) % 256)).getD (c.pc + 2 + 1).toNat 0
      = r := by
    rw [getD_set_ne _ _ _ _ (by omega), show c.pc + 2 + 1 = c.pc + 3 from by ring]
    exact hm3
  have h2 := step_POP
    { ram := c.ram.set ((c.sp - 1) % 256).toNat
               (((c.reg.set 7 ((c.sp - 1) % 256)).getD r.toNat 0) % 256),
      reg := c.reg.set 7 ((c.sp - 1) % 256),
      pc := c.pc + 2, ir := PUSH, mar := c.mar,
      mdr := (c.reg.set 7 ((c.sp - 1) % 256)).getD r.toNat 0,
      fl := c.fl, halted := c.halted, out := c.out } r
    c1lenram c1lenreg
    (by show (0:Int) ≤ c.pc + 2; omega)
    (by show c.pc + 2 + 1 < 256; omega)
    (by show 0 ≤ (c.reg.set 7 ((c.sp - 1) % 256)).getD 7 0 ∧
          (c.reg.set 7 ((c.sp - 1) % 256)).getD 7 0 < 256
        rw [c1sp]
        exact ⟨hsp'0, hsp'lt⟩)
    c1f c1r hr8
  dsimp only [CPU.sp] at h2
  have c1sp2 : (c.reg.set 7 ((c.reg.getD 7 0 - 1) % 256)).getD 7 0
      = (c.reg.getD 7 0 - 1) % 256 := getD_set_self _ _ _ (by omega)
  rw [c1sp2] at h2
  rw [getD_set_self c.ram ((c.reg.getD 7 0 - 1) % 256).toNat
        ((c.reg.set 7 ((c.reg.getD 7 0 - 1) % 256)).getD r.toNat 0 % 256) (by omega)] at h2
  have hspS : 0 ≤ c.reg.getD 7 0 ∧ c.reg.getD 7 0 < 256 := hsp
  have hvS : c.reg.getD r.toNat 0 = v := hv'
  refine ⟨_, _, h1, h2, ?_, ?_, ?_⟩
  · rw [regGet_in _ r hr8.1 (by dsimp only []; simp only [List.length_set]; omega)]
    dsimp only []
    by_cases h7 : r.toNat = 7
    · have hr7 : r = 7 := by omega
      subst hr7
      rw [show Int.toNat 7 = 7 from rfl] at hvS ⊢
      rw [c1sp2]
      rw [getD_set_self _ 7 _ (by simp only [List.length_set]; omega)]
      rw [getD_set_self _ 7 _ (by simp only [List.length_set]; omega)]
      rw [Option.some_inj]
      omega
    · rw [getD_set_ne _ 7 r.toNat _ (fun hh => h7 hh.symm)]
      rw [getD_set_self _ r.toNat _ (by simp only [List.length_set]; omega)]
      rw [getD_set_ne c.reg 7 r.toNat _ (fun hh => h7 hh.symm)]
      rw [hvS]
      rw [show v % 256 = v from by omega]
  · dsimp only [CPU.sp]
    rw [getD_set_self _ 7 _ (by simp only [List.length_set]; omega)]
    by_cases h7 : r.toNat = 7
    · have hr7 : r = 7 := by omega
      subst hr7
      rw [show Int.toNat 7 = 7 from rfl]
      rw [c1sp2]
      rw [getD_set_self _ 7 _ (by simp only [List.length_set]; omega)]
      omega
    · rw [getD_set_ne _ r.toNat 7 _ h7]
      rw [c1sp2]
      omega
  · dsimp only []
    omega

/-- Witness for `push_pop_roundtrip` at `pushPopProbe`. -/
theorem push_pop_roundtrip_witness :
    (pushPopProbe.ram.length = 256 ∧ pushPopProbe.reg.length = 8 ∧
     0 ≤ pushPopProbe.pc ∧ pushPopProbe.pc + 3 < 256 ∧
     pushPopProbe.ram.getD pushPopProbe.pc.toNat 0 = PUSH ∧
     pushPopProbe.ram.getD (pushPopProbe.pc + 1).toNat 0 = 0 ∧
     pushPopProbe.ram.getD (pushPopProbe.pc + 2).toNat 0 = POP ∧
     pushPopProbe.ram.getD (pushPopProbe.pc + 3).toNat 0 = 0 ∧
     ((0:Int) ≤ 0 ∧ (0:Int) < 8) ∧
     (0 ≤ pushPopProbe.sp ∧ pushPopProbe.sp < 256) ∧
     pushPopProbe.regGet 0 = some 42 ∧ ((0:Int) ≤ 42 ∧ (42:Int) < 256) ∧
     (pushPopProbe.sp - 1) % 256 ≠ pushPopProbe.pc + 2 ∧
     (pushPopProbe.sp - 1) % 256 ≠ pushPopProbe.pc + 3) ∧
    (∃ c1 c2 : CPU, step pushPopProbe = StepRes.next c1 ∧ step c1 = StepRes.next c2 ∧
       c2.regGet 0 = some 42 ∧ c2.sp = pushPopProbe.sp ∧ c2.pc = pushPopProbe.pc + 4) :=
  ⟨⟨by decide, by decide, by decide, by decide, by decide, by decide, by decide, by decide,
    by decide, by decide, by decide, by decide, by decide, by decide⟩,
   push_pop_roundtrip pushPopProbe 0 42 (by decide) (by decide) (by decide) (by decide)
     (by decide) (by decide) (by decide) (by decide) (by decide) (by decide)
     (by decide) (by decide) (by decide) (by decide)⟩

/-- C7: CALL decrements SP (mod 256), stores PC + instruction_size(CALL) = PC + 2
at Memory[SP], and sets PC = Register[op_a]; RET sets PC = Memory[SP] and
increments SP; with the stack slot unclobbered and stack discipline respected,
a CALL followed by RET restores PC to the instruction immediately after the
CALL and SP to its pre-CALL value. -/
theorem call_ret_roundtrip (c : CPU) (r t : Int)
    (hlen : c.ram.length = 256) (hreg : c.reg.length = 8)
    (hpc0 : 0 ≤ c.pc) (hpc2 : c.pc + 2 < 256)
    (hm0 : c.ram.getD c.pc.toNat 0 = CALL)
    (hm1 : c.ram.getD (c.pc + 1).toNat 0 = r)
    (hr8 : 0 ≤ r ∧ r < 8) (hr7 : r ≠ 7)
    (ht : c.regGet r = some t) (ht256 : 0 ≤ t ∧ t < 256)
    (hret : c.ram.getD t.toNat 0 = RET)
    (hsp : 0 ≤ c.sp ∧ c.sp < 256)
    (hnc1 : (c.sp - 1) % 256 ≠ c.pc + 1)
    (hnct : (c.sp - 1) % 256 ≠ t) :
    ∃ c1 c2 : CPU, step c = StepRes.next c1 ∧ step c1 = StepRes.next c2 ∧
      c1.pc = t ∧ c1.sp = (c.sp - 1) % 256 ∧
      c1.ram.getD ((c.sp - 1) % 256).toNat 0 = c.pc + 2 ∧
      c2.pc = c.pc + 2 ∧ c2.sp = c.sp := by
  have hspS : 0 ≤ c.reg.getD 7 0 ∧ c.reg.getD 7 0 < 256 := hsp
  have hnctS : (c.reg.getD 7 0 - 1) % 256 ≠ t := hnct
  have h7 : r.toNat ≠ 7 := by omega
  have htS : c.reg.getD r.toNat 0 = t := by
    rw [regGet_in c r hr8.1 (by omega)] at ht
    exact Option.some_inj.mp ht
  have c1sp2 : (c.reg.set 7 ((c.reg.getD 7 0 - 1) % 256)).getD 7 0
      = (c.reg.getD 7 0 - 1) % 256 := getD_set_self _ _ _ (by omega)
  have hG1r : (c.reg.set 7 ((c.reg.getD 7 0 - 1) % 256)).getD r.toNat 0 = t := by
    rw [getD_set_ne _ 7 r.toNat _ (fun hh => h7 hh.symm)]
    exact htS
  have hmod : (c.pc + 2) % 256 = c.pc + 2 := by omega
  have h1 := step_CALL c r hlen hreg hpc0 (by omega) hnc1 hm0 hm1 hr8
  dsimp only [CPU.sp] at h1
  rw [hG1r, hmod] at h1
  have h2 := step_RET
    { ram := c.ram.set ((c.reg.getD 7 0 - 1) % 256).toNat (c.pc + 2),
      reg := c.reg.set 7 ((c.reg.getD 7 0 - 1) % 256),
      pc := t, ir := CALL, mar := c.mar, mdr := c.mdr,
      fl := c.fl, halted := c.halted, out := c.out }
    (by dsimp only []; simp only [List.length_set]; exact hlen)
    (by dsimp only []; simp only [List.length_set]; exact hreg)
    (by show (0:Int) ≤ t; omega)
    (by show t < 256; omega)
    (by show 0 ≤ (c.reg.set 7 ((c.reg.getD 7 0 - 1) % 256)).getD 7 0 ∧
          (c.reg.set 7 ((c.reg.getD 7 0 - 1) % 256)).getD 7 0 < 256
        rw [c1sp2]
        omega)
    (by show (c.ram.set ((c.reg.getD 7 0 - 1) % 256).toNat (c.pc + 2)).getD t.toNat 0 = RET
        rw [getD_set_ne _ _ _ _ (by omega)]
        exact hret)
  dsimp only [CPU.sp] at h2
  rw [c1sp2] at h2
  rw [getD_set_self c.ram ((c.reg.getD 7 0 - 1) % 256).toNat (c.pc + 2) (by omega)] at h2
  refine ⟨_, _, h1, h2, ?_, ?_, ?_, ?_, ?_⟩
  · dsimp only []
  · dsimp only [CPU.sp]
    exact c1sp2
  · show (c.ram.set ((c.reg.getD 7 0 - 1) % 256).toNat (c.pc + 2)).getD
        ((c.reg.getD 7 0 - 1) % 256).toNat 0 = c.pc + 2
    rw [getD_set_self c.ram ((c.reg.getD 7 0 - 1) % 256).toNat (c.pc + 2) (by omega)]
  · dsimp only []
  · dsimp only [CPU.sp]
    rw [getD_set_self _ 7 _ (by simp only [List.length_set]; omega)]
    omega

/-- Witness for `call_ret_roundtrip` at `callRetProbe`. -/
theorem call_ret_roundtrip_witness :
    (callRetProbe.ram.length = 256 ∧ callRetProbe.reg.length = 8 ∧
     0 ≤ callRetProbe.pc ∧ callRetProbe.pc + 2 < 256 ∧
     callRetProbe.ram.getD callRetProbe.pc.toNat 0 = CALL ∧
     callRetProbe.ram.getD (callRetProbe.pc + 1).toNat 0 = 0 ∧
     ((0:Int) ≤ 0 ∧ (0:Int) < 8) ∧ (0:Int) ≠ 7 ∧
     callRetProbe.regGet 0 = some 10 ∧ ((0:Int) ≤ 10 ∧ (10:Int) < 256) ∧
     callRetProbe.ram.getD (10:Int).toNat 0 = RET ∧
     (0 ≤ callRetProbe.sp ∧ callRetProbe.sp < 256) ∧
     (callRetProbe.sp - 1) % 256 ≠ callRetProbe.pc + 1 ∧
     (callRetProbe.sp - 1) % 256 ≠ 10) ∧
    (∃ c1 c2 : CPU, step callRetProbe = StepRes.next c1 ∧ step c1 = StepRes.next c2 ∧
       c1.pc = 10 ∧ c1.sp = (callRetProbe.sp - 1) % 256 ∧
       c1.ram.getD ((callRetProbe.sp - 1) % 256).toNat 0 = callRetProbe.pc + 2 ∧
       c2.pc = callRetProbe.pc + 2 ∧ c2.sp = callRetProbe.sp) :=
  ⟨⟨by decide, by decide, by decide, by decide, by decide, by decide, by decide,
    by decide, by decide, by decide, by decide, by decide, by decide, by decide⟩,
   call_ret_roundtrip callRetProbe 0 10 (by decide) (by decide) (by decide) (by decide)
     (by decide) (by decide) (by decide) (by decide) (by decide) (by decide)
     (by decide) (by decide) (by decide) (by decide)⟩
